import Mathlib

/-!
# Verification of the buyone trading webhook

A shallow embedding of `trading.py` (the `TradingLogic` class) and the parts of
`tasty_api.py` (the `TastyTradeAPI` class) that the trading logic depends on.

The brokerage is modelled as an oracle (`Env`) describing what each API call
would return: the balance fetch, the positions fetch, the per-symbol quote
price, and whether an order with a given symbol, quantity and action is
accepted.  Every embedded operation returns, next to its Python return value,
the list of outgoing brokerage calls it performed, so that claims about
"issues zero brokerage calls" or "never places a Buy to Open order" can be
stated about the call trace.

Python floats are modelled as rationals; Python `int(x)` (truncation toward
zero) is `pyInt`.  Timestamps are rationals measured in hours, so the 12 hour
cooldown of `process_signal` is the constant `12`.
-/

/-- Python `int(x)` applied to a float: truncation toward zero. -/
def pyInt (q : ℚ) : Int := if q < 0 then ⌈q⌉ else ⌊q⌋

/-- The account balance payload; `trading.py` reads only the
`cash-available-to-withdraw` field. -/
structure Balance where
  cashAvailableToWithdraw : ℚ
deriving Repr, DecidableEq

/-- One position item of the positions fetch: `symbol`, `quantity` and
`quantity-direction`. -/
structure Position where
  symbol : String
  quantity : ℚ
  quantityDirection : String
deriving Repr, DecidableEq

/-- An outgoing brokerage call, as recorded while the trading logic runs. -/
inductive ApiCall where
  | getAccountBalance
  | getPositions
  | getStockPrice (symbol : String)
  | placeOrder (symbol : String) (quantity : Int) (action : String)
deriving Repr, DecidableEq

/-- The brokerage oracle: what each call of `tasty_api.py` would return.
`balance = none` models a failed balance fetch (the Python method returns
`None`), and similarly for `positions` and `price`; `orderAccepts` tells
whether `place_order` succeeds for a given symbol, quantity and action. -/
structure Env where
  balance : Option Balance
  positions : Option (List Position)
  price : String → Option ℚ
  orderAccepts : String → Int → String → Bool

/-- `TastyTradeAPI.get_account_balance`: result plus the recorded call. -/
def get_account_balance (env : Env) : Option Balance × List ApiCall :=
  (env.balance, [ApiCall.getAccountBalance])

/-- `TastyTradeAPI.get_positions`: result plus the recorded call. -/
def get_positions (env : Env) : Option (List Position) × List ApiCall :=
  (env.positions, [ApiCall.getPositions])

/-- `TastyTradeAPI.get_stock_price`: result plus the recorded call. -/
def get_stock_price (env : Env) (symbol : String) : Option ℚ × List ApiCall :=
  (env.price symbol, [ApiCall.getStockPrice symbol])

/-- `TastyTradeAPI.place_order`: a successful order is modelled as `some ()`,
a rejected or failed one as `none`. -/
def place_order (env : Env) (symbol : String) (quantity : Int) (action : String) :
    Option Unit × List ApiCall :=
  (if env.orderAccepts symbol quantity action then some () else none,
   [ApiCall.placeOrder symbol quantity action])

/-- The closing action derived by `TastyTradeAPI.close_position`:
`action = 'Sell to Close' if direction == 'Long' else 'Buy to Close'`. -/
def closeAction (direction : String) : String :=
  if direction = "Long" then "Sell to Close" else "Buy to Close"

/-- `TastyTradeAPI.close_position`: derives the closing action from the
position direction and delegates to `place_order`. -/
def close_position (env : Env) (symbol : String) (quantity : Int) (direction : String) :
    Option Unit × List ApiCall :=
  place_order env symbol quantity (closeAction direction)

/-- The first quote item of a quote response, with its optional `bid`, `ask`
and `last` fields (`get_stock_price` reads `data.items[0]`). -/
structure QuoteData where
  bid : Option ℚ
  ask : Option ℚ
  last : Option ℚ
deriving Repr, DecidableEq

/-- The possible outcomes of the quote fetch inside
`TastyTradeAPI.get_stock_price`: a transport/parsing error or empty items
array (both end in the `except` branch), a response without a `data` key, or
a first quote item. -/
inductive QuoteFetch where
  | failure
  | noData
  | items (first : QuoteData)
deriving Repr, DecidableEq

/-- The price derivation of `TastyTradeAPI.get_stock_price`: mid of bid/ask
when both are present, else the last trade price, else `none`. -/
def derive_stock_price : QuoteFetch → Option ℚ
  | QuoteFetch.failure => none
  | QuoteFetch.noData => none
  | QuoteFetch.items q =>
    match q.bid, q.ask with
    | some b, some a => some ((b + a) / 2)
    | _, _ =>
      match q.last with
      | some l => some l
      | none => none

/-- The result dictionary returned by the trading operations.  Keys absent
from a given Python dict are `none`. -/
structure SignalResult where
  status : String
  message : String
  symbol : Option String := none
  quantity : Option Int := none
  closed_positions : Option (List String) := none
deriving Repr, DecidableEq

/-- The `while low <= high` loop of `TradingLogic.binary_search_max_quantity`.
`accepts m` is the outcome of the probe order for quantity `m`; the second
component collects the probed quantities in order.  Values are integers as in
Python; Lean division of integers by `2` agrees with Python `//`. -/
def bsearchLoop (accepts : Int → Bool) (low high acc : Int) : Int × List Int :=
  if h : low ≤ high then
    if accepts ((low + high) / 2) then
      let r := bsearchLoop accepts ((low + high) / 2 + 1) high ((low + high) / 2)
      (r.1, (low + high) / 2 :: r.2)
    else
      let r := bsearchLoop accepts low ((low + high) / 2 - 1) acc
      (r.1, (low + high) / 2 :: r.2)
  else
    (acc, [])
termination_by (high + 1 - low).toNat
decreasing_by
  · omega
  · omega

/-- `TradingLogic.binary_search_max_quantity`: price fetch, theoretical
maximum `int(max_cash / price)`, then the probing loop from `low = 1`,
`high = theoretical_max`.  Returns the maximum accepted quantity (0 when the
price is unavailable or nonpositive, or the theoretical maximum is ≤ 0, or no
probe was accepted) together with the call trace. -/
def binary_search_max_quantity (env : Env) (symbol : String) (max_cash : ℚ) :
    Int × List ApiCall :=
  match env.price symbol with
  | none => (0, [ApiCall.getStockPrice symbol])
  | some price =>
    if price ≤ 0 then (0, [ApiCall.getStockPrice symbol])
    else
      let theoretical_max := pyInt (max_cash / price)
      if theoretical_max ≤ 0 then (0, [ApiCall.getStockPrice symbol])
      else
        let r := bsearchLoop
          (fun m => env.orderAccepts symbol m "Buy to Open")
          1 theoretical_max 0
        (r.1,
         ApiCall.getStockPrice symbol ::
           r.2.map (fun m => ApiCall.placeOrder symbol m "Buy to Open"))

/-- `TradingLogic.process_long_signal`.  Arguments: the oracle, the current
time, and the current `last_successful_buy`; returns the result dict, the new
`last_successful_buy`, and the call trace. -/
def process_long_signal (env : Env) (now : ℚ) (last : Option ℚ) :
    SignalResult × Option ℚ × List ApiCall :=
  match env.balance with
  | none =>
    ({ status := "error", message := "Failed to get account balance" }, last,
     [ApiCall.getAccountBalance])
  | some balance =>
    let cash_available := balance.cashAvailableToWithdraw
    match env.positions with
    | none =>
      ({ status := "error", message := "Failed to get positions" }, last,
       [ApiCall.getAccountBalance, ApiCall.getPositions])
    | some positions =>
      let max_cash := if positions ≠ [] then cash_available else cash_available * (1 / 2)
      let bs := binary_search_max_quantity env "MSTU" max_cash
      let quantity := bs.1
      let baseCalls := ApiCall.getAccountBalance :: ApiCall.getPositions :: bs.2
      if quantity ≤ 0 then
        ({ status := "error", message := "Failed to buy MSTU" }, last, baseCalls)
      else
        let closeCalls :=
          if positions ≠ [] then
            ((positions.filter (fun p => p.symbol = "MSTZ")).map
              (fun p => (close_position env "MSTZ" (pyInt p.quantity) p.quantityDirection).2)).flatten
          else []
        ({ status := "success",
           message := "Bought " ++ toString quantity ++ " shares of MSTU",
           quantity := some quantity, symbol := some "MSTU" },
         some now, baseCalls ++ closeCalls)

/-- `TradingLogic.process_short_signal`: the symmetric branch, buying MSTZ and
closing MSTU positions. -/
def process_short_signal (env : Env) (now : ℚ) (last : Option ℚ) :
    SignalResult × Option ℚ × List ApiCall :=
  match env.balance with
  | none =>
    ({ status := "error", message := "Failed to get account balance" }, last,
     [ApiCall.getAccountBalance])
  | some balance =>
    let cash_available := balance.cashAvailableToWithdraw
    match env.positions with
    | none =>
      ({ status := "error", message := "Failed to get positions" }, last,
       [ApiCall.getAccountBalance, ApiCall.getPositions])
    | some positions =>
      let max_cash := if positions ≠ [] then cash_available else cash_available * (1 / 2)
      let bs := binary_search_max_quantity env "MSTZ" max_cash
      let quantity := bs.1
      let baseCalls := ApiCall.getAccountBalance :: ApiCall.getPositions :: bs.2
      if quantity ≤ 0 then
        ({ status := "error", message := "Failed to buy MSTZ" }, last, baseCalls)
      else
        let closeCalls :=
          if positions ≠ [] then
            ((positions.filter (fun p => p.symbol = "MSTU")).map
              (fun p => (close_position env "MSTU" (pyInt p.quantity) p.quantityDirection).2)).flatten
          else []
        ({ status := "success",
           message := "Bought " ++ toString quantity ++ " shares of MSTZ",
           quantity := some quantity, symbol := some "MSTZ" },
         some now, baseCalls ++ closeCalls)

/-- Python `if not symbols or symbol in symbols` inside
`TradingLogic.close_positions`: a `None` or empty filter matches every symbol. -/
def matchesFilter (symbols : Option (List String)) (symbol : String) : Bool :=
  match symbols with
  | none => true
  | some syms => syms.isEmpty || symbol ∈ syms

/-- The `for position in positions` loop of `TradingLogic.close_positions`:
returns the accumulated `closed_positions` list and the call trace. -/
def closePositionsLoop (env : Env) (symbols : Option (List String)) :
    List Position → List String × List ApiCall
  | [] => ([], [])
  | position :: rest =>
    let tail := closePositionsLoop env symbols rest
    if matchesFilter symbols position.symbol then
      let res := close_position env position.symbol (pyInt position.quantity)
        position.quantityDirection
      match res.1 with
      | some _ => (position.symbol :: tail.1, res.2 ++ tail.2)
      | none => (tail.1, res.2 ++ tail.2)
    else
      tail

/-- `TradingLogic.close_positions`. -/
def close_positions (env : Env) (symbols : Option (List String)) :
    SignalResult × List ApiCall :=
  match env.positions with
  | none =>
    ({ status := "error", message := "Failed to get positions" }, [ApiCall.getPositions])
  | some positions =>
    if positions = [] then
      ({ status := "success", message := "No positions to close" }, [ApiCall.getPositions])
    else
      let r := closePositionsLoop env symbols positions
      if r.1 ≠ [] then
        ({ status := "success",
           message := "Closed positions: " ++ String.intercalate ", " r.1,
           closed_positions := some r.1 }, ApiCall.getPositions :: r.2)
      else
        ({ status := "success", message := "No matching positions found to close" },
         ApiCall.getPositions :: r.2)

/-- The cooldown test of `TradingLogic.process_signal`: a
`last_successful_buy` exists and lies within 12 hours of `now`. -/
def in_cooldown (now : ℚ) : Option ℚ → Bool
  | some t => decide (now - t < 12)
  | none => false

/-- `TradingLogic.process_signal`: validation, cooldown check, then dispatch
to the long or short branch.  Returns the result dict, the new
`last_successful_buy`, and the call trace. -/
def process_signal (env : Env) (now : ℚ) (last : Option ℚ) (signal : String) :
    SignalResult × Option ℚ × List ApiCall :=
  if signal ∉ ["long", "short"] then
    ({ status := "error", message := "Invalid signal" }, last, [])
  else if in_cooldown now last then
    let r := close_positions env (some ["MSTU", "MSTZ"])
    (r.1, last, r.2)
  else if signal = "long" then
    process_long_signal env now last
  else
    process_short_signal env now last

/-! ## Derived quantities and concrete oracles used in the statements -/

/-- The `theoretical_max` of a binary-search run, as a natural number bound
on the number of probe orders: `int(max_cash / price)` when a positive price
is available, else `0`. -/
def theoretical_max_nat (env : Env) (symbol : String) (max_cash : ℚ) : Nat :=
  match env.price symbol with
  | none => 0
  | some p => if p ≤ 0 then 0 else (pyInt (max_cash / p)).toNat

/-- The `max_cash` a long/short branch would pass to the sizing step:
100% of available cash when positions exist, 50% when starting flat
(0 when either fetch would fail, in which case no sizing happens). -/
def spendable_cash (env : Env) : ℚ :=
  match env.balance, env.positions with
  | some bal, some ps =>
    if ps ≠ [] then bal.cashAvailableToWithdraw else bal.cashAvailableToWithdraw * (1 / 2)
  | _, _ => 0

/-- The number of positions the oracle reports (0 on fetch failure). -/
def position_count (env : Env) : Nat :=
  match env.positions with
  | some ps => ps.length
  | none => 0

/-- Oracle with 10000 cash, no positions, MSTU priced at 100, every order
accepted: the spec's 50%-of-cash example. -/
def envFlat : Env :=
  { balance := some ⟨10000⟩, positions := some [],
    price := fun s => if s = "MSTU" then some 100 else none,
    orderAccepts := fun _ _ _ => true }

/-- Oracle whose brokerage accepts Buy to Open orders up to and including 37
shares and rejects 38+, with every symbol priced at 1. -/
def envThreshold : Env :=
  { balance := none, positions := none,
    price := fun _ => some 1,
    orderAccepts := fun _ q _ => decide (q ≤ 37) }

/-- Oracle with zero cash, no positions, and no price available: every
sizing attempt yields quantity 0. -/
def envPoor : Env :=
  { balance := some ⟨0⟩, positions := some [],
    price := fun _ => none,
    orderAccepts := fun _ _ _ => false }

/-- Oracle holding one MSTU long position and one MSTZ short position, whose
brokerage accepts orders only for MSTU. -/
def envMixed : Env :=
  { balance := none,
    positions := some [⟨"MSTU", 5, "Long"⟩, ⟨"MSTZ", 3, "Short"⟩],
    price := fun _ => none,
    orderAccepts := fun s _ _ => decide (s = "MSTU") }

/-! ## Lemmas about the binary-search loop -/

/-- Every quantity probed by the loop lies between the current bounds. -/
theorem bsearchLoop_probe_mem (accepts : Int → Bool) :
    ∀ n low high acc, (high + 1 - low).toNat ≤ n →
      ∀ m ∈ (bsearchLoop accepts low high acc).2, low ≤ m ∧ m ≤ high := by
  intro n
  induction n with
  | zero =>
    intro low high acc hn m hm
    rw [bsearchLoop] at hm
    have hlh : ¬ low ≤ high := by omega
    simp [hlh] at hm
  | succ n ih =>
    intro low high acc hn m hm
    rw [bsearchLoop] at hm
    by_cases hlh : low ≤ high
    · simp only [hlh, dif_pos] at hm
      by_cases hacc : accepts ((low + high) / 2) = true
      · simp only [hacc, if_pos] at hm
        rcases List.mem_cons.1 hm with h | h
        · omega
        · have := ih ((low + high) / 2 + 1) high ((low + high) / 2) (by omega) m h
          omega
      · simp only [hacc, if_neg, Bool.not_eq_true] at hm
        rcases List.mem_cons.1 hm with h | h
        · omega
        · have := ih low ((low + high) / 2 - 1) acc (by omega) m h
          omega
    · simp [hlh] at hm

/-- The loop's return value never exceeds `max acc high`. -/
theorem bsearchLoop_result_le (accepts : Int → Bool) :
    ∀ n low high acc, (high + 1 - low).toNat ≤ n →
      (bsearchLoop accepts low high acc).1 ≤ max acc high := by
  intro n
  induction n with
  | zero =>
    intro low high acc hn
    rw [bsearchLoop]
    have hlh : ¬ low ≤ high := by omega
    simp only [hlh, dif_neg, not_false_iff]
    omega
  | succ n ih =>
    intro low high acc hn
    rw [bsearchLoop]
    by_cases hlh : low ≤ high
    · simp only [hlh, dif_pos]
      by_cases hacc : accepts ((low + high) / 2) = true
      · simp only [hacc, if_pos]
        have := ih ((low + high) / 2 + 1) high ((low + high) / 2) (by omega)
        omega
      · simp only [hacc, if_neg, Bool.not_eq_true]
        have := ih low ((low + high) / 2 - 1) acc (by omega)
        omega
    · simp only [hlh, dif_neg, not_false_iff]
      omega

/-- The loop's return value is either the initial accumulator or a probed
quantity that the oracle accepted. -/
theorem bsearchLoop_result_cases (accepts : Int → Bool) :
    ∀ n low high acc, (high + 1 - low).toNat ≤ n →
      (bsearchLoop accepts low high acc).1 = acc ∨
        ((bsearchLoop accepts low high acc).1 ∈ (bsearchLoop accepts low high acc).2 ∧
          accepts (bsearchLoop accepts low high acc).1 = true) := by
  intro n
  induction n with
  | zero =>
    intro low high acc hn
    rw [bsearchLoop]
    have hlh : ¬ low ≤ high := by omega
    simp [hlh]
  | succ n ih =>
    intro low high acc hn
    rw [bsearchLoop]
    by_cases hlh : low ≤ high
    · simp only [hlh, dif_pos]
      by_cases hacc : accepts ((low + high) / 2) = true
      · simp only [hacc, if_pos]
        rcases ih ((low + high) / 2 + 1) high ((low + high) / 2) (by omega) with h | ⟨h1, h2⟩
        · right
          constructor
          · rw [h]; exact List.mem_cons_self _ _
          · rw [h]; exact hacc
        · right
          exact ⟨List.mem_cons_of_mem _ h1, h2⟩
      · simp only [hacc, if_neg, Bool.not_eq_true]
        rcases ih low ((low + high) / 2 - 1) acc (by omega) with h | ⟨h1, h2⟩
        · left; exact h
        · right
          exact ⟨List.mem_cons_of_mem _ h1, h2⟩
    · simp [hlh]

/-- Against a threshold oracle that accepts exactly the quantities `≤ B`, the
loop converges to `B` whenever its invariant `low = acc + 1 ∧ acc ≤ B ≤ high`
holds. -/
theorem bsearchLoop_threshold (accepts : Int → Bool) (B : Int)
    (hacc : ∀ m, accepts m = decide (m ≤ B)) :
    ∀ n low high acc, (high + 1 - low).toNat ≤ n →
      low = acc + 1 → acc ≤ B → B ≤ high →
      (bsearchLoop accepts low high acc).1 = B := by
  intro n
  induction n with
  | zero =>
    intro low high acc hn hlow haccB hBhigh
    rw [bsearchLoop]
    have hlh : ¬ low ≤ high := by omega
    simp only [hlh, dif_neg, not_false_iff]
    omega
  | succ n ih =>
    intro low high acc hn hlow haccB hBhigh
    rw [bsearchLoop]
    by_cases hlh : low ≤ high
    · simp only [hlh, dif_pos]
      by_cases hmB : (low + high) / 2 ≤ B
      · have ha : accepts ((low + high) / 2) = true := by
          rw [hacc]; simp [hmB]
        simp only [ha, if_pos]
        exact ih ((low + high) / 2 + 1) high ((low + high) / 2) (by omega) rfl hmB hBhigh
      · have ha : ¬ accepts ((low + high) / 2) = true := by
          rw [hacc]; simp [hmB]
        simp only [ha, if_neg, Bool.not_eq_true]
        exact ih low ((low + high) / 2 - 1) acc (by omega) hlow haccB (by omega)
    · rw [bsearchLoop]
      have : ¬ low ≤ high := hlh
      simp only [this, dif_neg, not_false_iff]
      omega

/-- Against an oracle that accepts every probe, the loop converges to
`max acc high`. -/
theorem bsearchLoop_allAccept (accepts : Int → Bool)
    (hacc : ∀ m, accepts m = true) :
    ∀ n low high acc, (high + 1 - low).toNat ≤ n → low = acc + 1 →
      (bsearchLoop accepts low high acc).1 = max acc high := by
  intro n
  induction n with
  | zero =>
    intro low high acc hn hlow
    rw [bsearchLoop]
    have hlh : ¬ low ≤ high := by omega
    simp only [hlh, dif_neg, not_false_iff]
    omega
  | succ n ih =>
    intro low high acc hn hlow
    rw [bsearchLoop]
    by_cases hlh : low ≤ high
    · simp only [hlh, dif_pos, hacc, if_pos]
      have := ih ((low + high) / 2 + 1) high ((low + high) / 2) (by omega) rfl
      omega
    · simp only [hlh, dif_neg, not_false_iff]
      omega

/-- The loop performs at most `high + 1 - low` probes: each iteration
strictly shrinks the search interval. -/
theorem bsearchLoop_length (accepts : Int → Bool) :
    ∀ n low high acc, (high + 1 - low).toNat ≤ n →
      (bsearchLoop accepts low high acc).2.length ≤ (high + 1 - low).toNat := by
  intro n
  induction n with
  | zero =>
    intro low high acc hn
    rw [bsearchLoop]
    have hlh : ¬ low ≤ high := by omega
    simp [hlh]
  | succ n ih =>
    intro low high acc hn
    rw [bsearchLoop]
    by_cases hlh : low ≤ high
    · simp only [hlh, dif_pos]
      by_cases hacc : accepts ((low + high) / 2) = true
      · simp only [hacc, if_pos, List.length_cons]
        have := ih ((low + high) / 2 + 1) high ((low + high) / 2) (by omega)
        omega
      · simp only [hacc, if_neg, Bool.not_eq_true, List.length_cons]
        have := ih low ((low + high) / 2 - 1) acc (by omega)
        omega
    · simp [hlh]

/-! ## Lemmas about `binary_search_max_quantity` -/

/-- Characterization of a binary-search run against a priced symbol: every
order it places is a Buy to Open probe for the searched symbol with quantity
between 1 and `int(max_cash / price)`, and its return value is 0 or an
accepted quantity within those bounds. -/
theorem binary_search_spec (env : Env) (symbol : String) (max_cash : ℚ)
    (p : ℚ) (hp : env.price symbol = some p) (hp0 : 0 < p) :
    (∀ s q a, ApiCall.placeOrder s q a ∈ (binary_search_max_quantity env symbol max_cash).2 →
       s = symbol ∧ a = "Buy to Open" ∧ 1 ≤ q ∧ q ≤ pyInt (max_cash / p))
    ∧ ((binary_search_max_quantity env symbol max_cash).1 = 0 ∨
       (1 ≤ (binary_search_max_quantity env symbol max_cash).1 ∧
        (binary_search_max_quantity env symbol max_cash).1 ≤ pyInt (max_cash / p) ∧
        env.orderAccepts symbol (binary_search_max_quantity env symbol max_cash).1
          "Buy to Open" = true)) := by
  have hnp : ¬ p ≤ 0 := not_le.2 hp0
  unfold binary_search_max_quantity
  rw [hp]
  simp only [hnp, if_neg, not_false_iff]
  by_cases htm : pyInt (max_cash / p) ≤ 0
  · simp only [htm, if_pos]
    constructor
    · intro s q a hmem
      simp at hmem
    · simp
  · simp only [htm, if_neg, not_false_iff]
    set accepts := fun m => env.orderAccepts symbol m "Buy to Open" with haccepts
    set T := pyInt (max_cash / p) with hT
    constructor
    · intro s q a hmem
      simp only [List.mem_cons, List.mem_map] at hmem
      rcases hmem with h | ⟨m, hm, heq⟩
      · exact absurd h (by simp)
      · simp only [ApiCall.placeOrder.injEq] at heq
        obtain ⟨h1, h2, h3⟩ := heq
        have hb := bsearchLoop_probe_mem accepts (T + 1 - 1).toNat 1 T 0 (by omega) m hm
        exact ⟨h1.symm, h3.symm, by omega, by omega⟩
    · rcases bsearchLoop_result_cases accepts (T + 1 - 1).toNat 1 T 0 (by omega) with h | ⟨h1, h2⟩
      · left; exact h
      · right
        have := bsearchLoop_probe_mem accepts (T + 1 - 1).toNat 1 T 0 (by omega) _ h1
        exact ⟨this.1, this.2, h2⟩

/-- When the oracle is a threshold oracle for Buy to Open orders on `symbol`
(accepting exactly quantities `≤ B`) and the theoretical maximum reaches `B`,
the binary search returns exactly `B`. -/
theorem binary_search_threshold (env : Env) (symbol : String) (max_cash : ℚ)
    (p : ℚ) (B : Int) (hp : env.price symbol = some p) (hp0 : 0 < p)
    (hB : 0 ≤ B) (hT : B + 1 ≤ pyInt (max_cash / p))
    (hOrd : ∀ q, env.orderAccepts symbol q "Buy to Open" = decide (q ≤ B)) :
    (binary_search_max_quantity env symbol max_cash).1 = B := by
  have hnp : ¬ p ≤ 0 := not_le.2 hp0
  unfold binary_search_max_quantity
  rw [hp]
  simp only [hnp, if_neg, not_false_iff]
  by_cases htm : pyInt (max_cash / p) ≤ 0
  · omega
  · simp only [htm, if_neg, not_false_iff]
    exact bsearchLoop_threshold _ B hOrd (pyInt (max_cash / p) + 1 - 1).toNat 1
      (pyInt (max_cash / p)) 0 (by omega) rfl hB (by omega)

/-- The binary search performs one quote fetch plus at most
`theoretical_max` probe orders. -/
theorem binary_search_length (env : Env) (symbol : String) (max_cash : ℚ) :
    (binary_search_max_quantity env symbol max_cash).2.length ≤
      1 + (match env.price symbol with
           | none => 0
           | some p => if p ≤ 0 then 0 else (pyInt (max_cash / p)).toNat) := by
  unfold binary_search_max_quantity
  cases hp : env.price symbol with
  | none => simp
  | some p =>
    by_cases hnp : p ≤ 0
    · simp [hnp]
    · simp only [hnp, if_neg, not_false_iff]
      by_cases htm : pyInt (max_cash / p) ≤ 0
      · simp [htm]
      · simp only [htm, if_neg, not_false_iff, List.length_cons, List.length_map]
        refine le_trans (Nat.add_le_add_right (bsearchLoop_length _ _ 1 _ 0 le_rfl) 1) ?_
        show (pyInt (max_cash / p) + 1 - 1).toNat + 1 ≤ 1 + (pyInt (max_cash / p)).toNat
        omega

/-! ## Lemmas about `close_positions` -/

/-- The derived closing action is always one of the two closing order types. -/
theorem closeAction_cases (direction : String) :
    closeAction direction = "Sell to Close" ∨ closeAction direction = "Buy to Close" := by
  unfold closeAction
  by_cases h : direction = "Long"
  · left; simp [h]
  · right; simp [h]

/-- Every call recorded by the close-positions loop is a closing order
(Sell to Close or Buy to Close). -/
theorem closePositionsLoop_calls (env : Env) (symbols : Option (List String)) :
    ∀ ps : List Position, ∀ c ∈ (closePositionsLoop env symbols ps).2,
      ∃ s q, c = ApiCall.placeOrder s q "Sell to Close" ∨
             c = ApiCall.placeOrder s q "Buy to Close" := by
  intro ps
  induction ps with
  | nil => intro c hc; simp [closePositionsLoop] at hc
  | cons position rest ih =>
    intro c hc
    rw [closePositionsLoop] at hc
    by_cases hm : matchesFilter symbols position.symbol = true
    · by_cases hacc : env.orderAccepts position.symbol (pyInt position.quantity)
          (closeAction position.quantityDirection) = true
      · simp only [hm, if_pos, close_position, place_order, hacc, List.mem_append,
          List.mem_singleton] at hc
        rcases hc with h | h
        · refine ⟨position.symbol, pyInt position.quantity, ?_⟩
          rcases closeAction_cases position.quantityDirection with he | he
          · left; rw [h, he]
          · right; rw [h, he]
        · exact ih c h
      · simp only [hm, if_pos, close_position, place_order, hacc, List.mem_append,
          List.mem_singleton, Bool.false_eq_true, if_false] at hc
        rcases hc with h | h
        · refine ⟨position.symbol, pyInt position.quantity, ?_⟩
          rcases closeAction_cases position.quantityDirection with he | he
          · left; rw [h, he]
          · right; rw [h, he]
        · exact ih c h
    · simp only [hm, if_neg, Bool.not_eq_true] at hc
      exact ih c hc

/-- The close-positions loop records at most one call per position. -/
theorem closePositionsLoop_length (env : Env) (symbols : Option (List String)) :
    ∀ ps : List Position, (closePositionsLoop env symbols ps).2.length ≤ ps.length := by
  intro ps
  induction ps with
  | nil => simp [closePositionsLoop]
  | cons position rest ih =>
    rw [closePositionsLoop]
    by_cases hm : matchesFilter symbols position.symbol = true
    · by_cases hacc : env.orderAccepts position.symbol (pyInt position.quantity)
          (closeAction position.quantityDirection) = true
      · simp only [hm, if_pos, close_position, place_order, hacc, List.length_append,
          List.length_cons, List.length_nil, List.length_singleton]
        omega
      · simp only [hm, if_pos, close_position, place_order, hacc, List.length_append,
          List.length_cons, List.length_nil, List.length_singleton, Bool.false_eq_true,
          if_false]
        omega
    · simp only [hm, if_neg, Bool.not_eq_true, List.length_cons]
      exact le_trans ih (Nat.le_succ _)

/-- The `closed_positions` list accumulated by the loop holds exactly the
symbols of the positions that match the filter and whose closing order the
brokerage accepted, in order. -/
theorem closePositionsLoop_closed (env : Env) (symbols : Option (List String)) :
    ∀ ps : List Position,
      (closePositionsLoop env symbols ps).1 =
        (ps.filter (fun p => matchesFilter symbols p.symbol &&
            env.orderAccepts p.symbol (pyInt p.quantity)
              (closeAction p.quantityDirection))).map (fun p => p.symbol) := by
  intro ps
  induction ps with
  | nil => simp [closePositionsLoop]
  | cons position rest ih =>
    rw [closePositionsLoop, List.filter_cons]
    by_cases hm : matchesFilter symbols position.symbol = true
    · by_cases hacc : env.orderAccepts position.symbol (pyInt position.quantity)
          (closeAction position.quantityDirection) = true
      · simp only [hm, if_pos, close_position, place_order, hacc, Bool.and_self,
          List.map_cons, ih]
      · simp only [hm, if_pos, close_position, place_order, hacc, Bool.and_false,
          Bool.false_eq_true, if_false, ih]
    · simp only [hm, if_neg, Bool.not_eq_true, Bool.false_and, Bool.false_eq_true,
        if_false, ih]

/-- If no position matches the filter, the loop closes nothing and records no
call. -/
theorem closePositionsLoop_nomatch (env : Env) (symbols : Option (List String)) :
    ∀ ps : List Position, (∀ p ∈ ps, matchesFilter symbols p.symbol = false) →
      closePositionsLoop env symbols ps = ([], []) := by
  intro ps
  induction ps with
  | nil => intro h; rfl
  | cons position rest ih =>
    intro h
    rw [closePositionsLoop]
    have hm : matchesFilter symbols position.symbol = false :=
      h position (List.mem_cons_self _ _)
    simp only [hm, Bool.false_eq_true, if_false]
    exact ih (fun p hp => h p (List.mem_cons_of_mem _ hp))

/-- `binary_search_length` restated through `theoretical_max_nat`. -/
theorem binary_search_length_tm (env : Env) (symbol : String) (max_cash : ℚ) :
    (binary_search_max_quantity env symbol max_cash).2.length ≤
      1 + theoretical_max_nat env symbol max_cash := by
  unfold theoretical_max_nat
  exact binary_search_length env symbol max_cash

/-- Each closing call of the unwinding step contributes exactly one recorded
order. -/
theorem close_calls_flatten_length (env : Env) (s : String) :
    ∀ l : List Position,
      ((l.map (fun p =>
        (close_position env s (pyInt p.quantity) p.quantityDirection).2)).flatten).length =
      l.length := by
  intro l
  induction l with
  | nil => rfl
  | cons p rest ih =>
    simp only [List.map_cons, List.flatten_cons, List.length_append, ih, List.length_cons]
    have h1 : (close_position env s (pyInt p.quantity) p.quantityDirection).2.length = 1 := rfl
    omega

/-- Every call of `close_positions` is the positions fetch or a closing
order. -/
theorem close_positions_calls (env : Env) (symbols : Option (List String)) :
    ∀ c ∈ (close_positions env symbols).2,
      c = ApiCall.getPositions ∨
        ∃ s q, c = ApiCall.placeOrder s q "Sell to Close" ∨
               c = ApiCall.placeOrder s q "Buy to Close" := by
  intro c hc
  cases hps : env.positions with
  | none =>
    simp only [close_positions, hps, List.mem_singleton] at hc
    exact Or.inl hc
  | some ps =>
    by_cases hempty : ps = []
    · simp only [close_positions, hps, hempty, if_pos, List.mem_singleton] at hc
      exact Or.inl hc
    · by_cases hclosed : (closePositionsLoop env symbols ps).1 = []
      · simp only [close_positions, hps, hempty, hclosed, if_neg, not_false_iff, ne_eq,
          not_true_eq_false, if_false, List.mem_cons] at hc
        rcases hc with h | h
        · exact Or.inl h
        · exact Or.inr (closePositionsLoop_calls env symbols ps c h)
      · simp only [close_positions, hps, hempty, hclosed, if_neg, not_false_iff, ne_eq,
          not_false_eq_true, if_true, List.mem_cons] at hc
        rcases hc with h | h
        · exact Or.inl h
        · exact Or.inr (closePositionsLoop_calls env symbols ps c h)

/-- `close_positions` performs the positions fetch plus at most one closing
order per reported position. -/
theorem close_positions_length (env : Env) (symbols : Option (List String)) :
    (close_positions env symbols).2.length ≤ 1 + position_count env := by
  cases hps : env.positions with
  | none => simp [close_positions, position_count, hps]
  | some ps =>
    by_cases hempty : ps = []
    · simp [close_positions, position_count, hps, hempty]
    · by_cases hclosed : (closePositionsLoop env symbols ps).1 = []
      · simp only [close_positions, position_count, hps, hempty, hclosed, if_neg,
          not_false_iff, ne_eq, not_true_eq_false, if_false, List.length_cons]
        have := closePositionsLoop_length env symbols ps
        omega
      · simp only [close_positions, position_count, hps, hempty, hclosed, if_neg,
          not_false_iff, ne_eq, not_false_eq_true, if_true, List.length_cons]
        have := closePositionsLoop_length env symbols ps
        omega

/-- Whenever the positions fetch succeeds, `close_positions` reports
success, whatever the individual closing orders did. -/
theorem close_positions_success (env : Env) (symbols : Option (List String))
    (ps : List Position) (hps : env.positions = some ps) :
    (close_positions env symbols).1.status = "success" := by
  by_cases hempty : ps = []
  · simp [close_positions, hps, hempty]
  · by_cases hclosed : (closePositionsLoop env symbols ps).1 = []
    · simp [close_positions, hps, hempty, hclosed]
    · simp [close_positions, hps, hempty, hclosed]

/-- With positions present but none matching the filter, `close_positions`
returns the no-match success result after just the positions fetch. -/
theorem close_positions_nomatch (env : Env) (symbols : Option (List String))
    (ps : List Position) (hps : env.positions = some ps) (hne : ps ≠ [])
    (hmatch : ∀ p ∈ ps, matchesFilter symbols p.symbol = false) :
    close_positions env symbols =
      ({ status := "success", message := "No matching positions found to close" },
       [ApiCall.getPositions]) := by
  have hloop := closePositionsLoop_nomatch env symbols ps hmatch
  simp [close_positions, hps, hne, hloop]

/-- With positions present, the `closed_positions` key of the result is
exactly the list of symbols whose matching close order the brokerage
accepted (absent when that list is empty). -/
theorem close_positions_closed (env : Env) (symbols : Option (List String))
    (ps : List Position) (hps : env.positions = some ps) (hne : ps ≠ []) :
    (close_positions env symbols).1.closed_positions =
      (if ((ps.filter (fun p => matchesFilter symbols p.symbol &&
              env.orderAccepts p.symbol (pyInt p.quantity)
                (closeAction p.quantityDirection))).map (fun p => p.symbol)) = []
       then none
       else some ((ps.filter (fun p => matchesFilter symbols p.symbol &&
              env.orderAccepts p.symbol (pyInt p.quantity)
                (closeAction p.quantityDirection))).map (fun p => p.symbol))) := by
  have hloop := closePositionsLoop_closed env symbols ps
  by_cases hclosed : (closePositionsLoop env symbols ps).1 = []
  · rw [hloop] at hclosed
    simp [close_positions, hps, hne, hloop, hclosed]
  · rw [hloop] at hclosed
    simp [close_positions, hps, hne, hloop, hclosed]

/-- Trace-length bound for the long branch. -/
theorem process_long_length (env : Env) (now : ℚ) (last : Option ℚ) :
    (process_long_signal env now last).2.2.length ≤
      3 + theoretical_max_nat env "MSTU" (spendable_cash env) + position_count env := by
  cases hb : env.balance with
  | none => simp only [process_long_signal, hb, List.length_cons, List.length_nil]; omega
  | some bal =>
    cases hps : env.positions with
    | none =>
      simp only [process_long_signal, hb, hps, List.length_cons, List.length_nil]
      omega
    | some ps =>
      have hpc : position_count env = ps.length := by simp [position_count, hps]
      simp only [process_long_signal, hb, hps]
      split
      next hne =>
        have hbs := binary_search_length_tm env "MSTU" (spendable_cash env)
        have hsp : spendable_cash env = bal.cashAvailableToWithdraw := by
          simp [spendable_cash, hb, hps, hne]
        rw [hsp] at hbs
        rw [hsp]
        split
        · simp only [List.length_cons]
          omega
        · simp only [List.length_cons, List.length_append]
          have hcc : ((List.map (fun p =>
              (close_position env "MSTZ" (pyInt p.quantity) p.quantityDirection).2)
                (List.filter (fun p => decide (p.symbol = "MSTZ")) ps)).flatten).length ≤
              ps.length := by
            rw [close_calls_flatten_length]
            exact List.length_filter_le _ _
          omega
      next hne =>
        have hbs := binary_search_length_tm env "MSTU" (spendable_cash env)
        have hsp : spendable_cash env = bal.cashAvailableToWithdraw * (1 / 2) := by
          simp [spendable_cash, hb, hps, hne]
        rw [hsp] at hbs
        rw [hsp]
        split
        · simp only [List.length_cons]
          omega
        · simp only [List.length_cons, List.length_append, List.length_nil]
          omega

/-- Trace-length bound for the short branch. -/
theorem process_short_length (env : Env) (now : ℚ) (last : Option ℚ) :
    (process_short_signal env now last).2.2.length ≤
      3 + theoretical_max_nat env "MSTZ" (spendable_cash env) + position_count env := by
  cases hb : env.balance with
  | none => simp only [process_short_signal, hb, List.length_cons, List.length_nil]; omega
  | some bal =>
    cases hps : env.positions with
    | none =>
      simp only [process_short_signal, hb, hps, List.length_cons, List.length_nil]
      omega
    | some ps =>
      have hpc : position_count env = ps.length := by simp [position_count, hps]
      simp only [process_short_signal, hb, hps]
      split
      next hne =>
        have hbs := binary_search_length_tm env "MSTZ" (spendable_cash env)
        have hsp : spendable_cash env = bal.cashAvailableToWithdraw := by
          simp [spendable_cash, hb, hps, hne]
        rw [hsp] at hbs
        rw [hsp]
        split
        · simp only [List.length_cons]
          omega
        · simp only [List.length_cons, List.length_append]
          have hcc : ((List.map (fun p =>
              (close_position env "MSTU" (pyInt p.quantity) p.quantityDirection).2)
                (List.filter (fun p => decide (p.symbol = "MSTU")) ps)).flatten).length ≤
              ps.length := by
            rw [close_calls_flatten_length]
            exact List.length_filter_le _ _
          omega
      next hne =>
        have hbs := binary_search_length_tm env "MSTZ" (spendable_cash env)
        have hsp : spendable_cash env = bal.cashAvailableToWithdraw * (1 / 2) := by
          simp [spendable_cash, hb, hps, hne]
        rw [hsp] at hbs
        rw [hsp]
        split
        · simp only [List.length_cons]
          omega
        · simp only [List.length_cons, List.length_append, List.length_nil]
          omega

/-! ## Claims -/

/-- C4: for every input string outside {"long", "short"}, `process_signal`
returns an error result whose message is "Invalid signal", issues zero
brokerage calls, and leaves `last_successful_buy` unchanged. -/
theorem C4_invalid_signal (env : Env) (now : ℚ) (last : Option ℚ) (signal : String)
    (h1 : signal ≠ "long") (h2 : signal ≠ "short") :
    process_signal env now last signal =
      ({ status := "error", message := "Invalid signal" }, last, []) := by
  have hval : signal ∉ ["long", "short"] := by simp [h1, h2]
  simp [process_signal, hval]

/-- Witness for C4 at the concrete invalid signal "flat". -/
theorem C4_invalid_signal_witness :
    process_signal envFlat 0 none "flat" =
      ({ status := "error", message := "Invalid signal" }, none, []) :=
  C4_invalid_signal envFlat 0 none "flat" (by decide) (by decide)

/-- C1: with `last_successful_buy` set and less than 12 hours old, any valid
signal makes `process_signal` return the result of closing positions on the
fixed pair {MSTU, MSTZ} with the state unchanged, and its trace never fetches
a balance, never fetches a price, and never places a Buy to Open order. -/
theorem C1_cooldown_only_closes (env : Env) (now t : ℚ) (signal : String)
    (hsig : signal = "long" ∨ signal = "short") (ht : now - t < 12) :
    process_signal env now (some t) signal =
      ((close_positions env (some ["MSTU", "MSTZ"])).1, some t,
        (close_positions env (some ["MSTU", "MSTZ"])).2) ∧
    ∀ c ∈ (process_signal env now (some t) signal).2.2,
      c ≠ ApiCall.getAccountBalance ∧ (∀ s, c ≠ ApiCall.getStockPrice s) ∧
      ∀ s q, c ≠ ApiCall.placeOrder s q "Buy to Open" := by
  have hcd : in_cooldown now (some t) = true := by
    simp only [in_cooldown, decide_eq_true_eq]
    exact ht
  have heq : process_signal env now (some t) signal =
      ((close_positions env (some ["MSTU", "MSTZ"])).1, some t,
        (close_positions env (some ["MSTU", "MSTZ"])).2) := by
    rcases hsig with h | h <;> subst h <;> simp [process_signal, hcd]
  refine ⟨heq, ?_⟩
  intro c hc
  rw [heq] at hc
  rcases close_positions_calls env (some ["MSTU", "MSTZ"]) c hc with h | ⟨s, q, h | h⟩
  · subst h
    exact ⟨by simp, fun s => by simp, fun s q => by simp⟩
  · subst h
    exact ⟨by simp, fun s2 => by simp, fun s2 q2 => by simp⟩
  · subst h
    exact ⟨by simp, fun s2 => by simp, fun s2 q2 => by simp⟩

/-- Witness for C1: a short signal arriving 1 hour after a successful buy,
against the mixed-positions oracle. -/
theorem C1_cooldown_only_closes_witness :
    process_signal envMixed 1 (some 0) "short" =
      ((close_positions envMixed (some ["MSTU", "MSTZ"])).1, some 0,
        (close_positions envMixed (some ["MSTU", "MSTZ"])).2) :=
  (C1_cooldown_only_closes envMixed 1 0 "short" (Or.inr rfl) (by norm_num)).1

/-- C5: for a valid signal outside the cooldown, a failed balance fetch or a
failed positions fetch makes `process_signal` return an error result, place
no order, and leave `last_successful_buy` unchanged. -/
theorem C5_fetch_failure (env : Env) (now : ℚ) (last : Option ℚ) (signal : String)
    (hsig : signal = "long" ∨ signal = "short")
    (hcd : in_cooldown now last = false)
    (hfail : env.balance = none ∨ env.positions = none) :
    (process_signal env now last signal).1.status = "error" ∧
    (process_signal env now last signal).2.1 = last ∧
    ∀ s q a, ApiCall.placeOrder s q a ∉ (process_signal env now last signal).2.2 := by
  have hval : ¬ signal ∉ ["long", "short"] := by
    rcases hsig with h | h <;> simp [h]
  rcases hsig with h | h
  · subst h
    simp only [process_signal, hval, if_neg, not_false_iff, hcd, Bool.false_eq_true,
      if_false, if_pos]
    rcases hfail with hb | hp
    · simp [process_long_signal, hb]
    · cases hb : env.balance with
      | none => simp [process_long_signal, hb]
      | some bal => simp [process_long_signal, hb, hp]
  · subst h
    have hns : ¬ ("short" : String) = "long" := by decide
    simp only [process_signal, hval, if_neg, not_false_iff, hcd, Bool.false_eq_true,
      if_false, hns]
    rcases hfail with hb | hp
    · simp [process_short_signal, hb]
    · cases hb : env.balance with
      | none => simp [process_short_signal, hb]
      | some bal => simp [process_short_signal, hb, hp]

/-- Witness for C5: a long signal against the oracle whose balance fetch
fails. -/
theorem C5_fetch_failure_witness :
    (process_signal envMixed 0 none "long").1.status = "error" ∧
    (process_signal envMixed 0 none "long").2.1 = none ∧
    ApiCall.placeOrder "MSTU" 1 "Buy to Open" ∉ (process_signal envMixed 0 none "long").2.2 := by
  have h := C5_fetch_failure envMixed 0 none "long" (Or.inl rfl) rfl (Or.inl rfl)
  exact ⟨h.1, h.2.1, h.2.2 "MSTU" 1 "Buy to Open"⟩

/-- C2: against a brokerage that accepts Buy to Open orders up to and
including a bound `B` and rejects every larger quantity, a binary search
whose theoretical maximum reaches `B + 1` returns exactly `B`. -/
theorem C2_binary_search_converges (env : Env) (symbol : String) (max_cash : ℚ)
    (p : ℚ) (B : Int)
    (hp : env.price symbol = some p) (hp0 : 0 < p) (hB : 0 ≤ B)
    (hOrd : ∀ q, env.orderAccepts symbol q "Buy to Open" = decide (q ≤ B))
    (hT : B + 1 ≤ pyInt (max_cash / p)) :
    (binary_search_max_quantity env symbol max_cash).1 = B :=
  binary_search_threshold env symbol max_cash p B hp hp0 hB hT hOrd

/-- Witness for C2: the spec's instance with bound 37 and theoretical
maximum 40. -/
theorem C2_binary_search_converges_witness :
    (binary_search_max_quantity envThreshold "MSTU" 40).1 = 37 :=
  C2_binary_search_converges envThreshold "MSTU" 40 1 37 rfl (by norm_num)
    (by norm_num) (fun q => rfl) (by norm_num [pyInt])

/-- C9: every Buy to Open order placed during the binary search has a
quantity between 1 and `int(max_cash / price)`, and the return value is
either 0 or a quantity the brokerage accepted during the search, within the
same bounds. -/
theorem C9_probe_invariant (env : Env) (symbol : String) (max_cash : ℚ) (p : ℚ)
    (hp : env.price symbol = some p) (hp0 : 0 < p) :
    (∀ s q a, ApiCall.placeOrder s q a ∈ (binary_search_max_quantity env symbol max_cash).2 →
       s = symbol ∧ a = "Buy to Open" ∧ 1 ≤ q ∧ q ≤ pyInt (max_cash / p)) ∧
    ((binary_search_max_quantity env symbol max_cash).1 = 0 ∨
      (1 ≤ (binary_search_max_quantity env symbol max_cash).1 ∧
       (binary_search_max_quantity env symbol max_cash).1 ≤ pyInt (max_cash / p) ∧
       env.orderAccepts symbol (binary_search_max_quantity env symbol max_cash).1
         "Buy to Open" = true)) :=
  binary_search_spec env symbol max_cash p hp hp0

/-- Witness for C9: the threshold oracle with theoretical maximum 40; the
returned quantity is 0 or accepted and within bounds. -/
theorem C9_probe_invariant_witness :
    (binary_search_max_quantity envThreshold "MSTU" 40).1 = 0 ∨
      (1 ≤ (binary_search_max_quantity envThreshold "MSTU" 40).1 ∧
       (binary_search_max_quantity envThreshold "MSTU" 40).1 ≤ pyInt ((40 : ℚ) / 1) ∧
       envThreshold.orderAccepts "MSTU" (binary_search_max_quantity envThreshold "MSTU" 40).1
         "Buy to Open" = true) :=
  (C9_probe_invariant envThreshold "MSTU" 40 1 rfl (by norm_num)).2

/-- C10: the binary-search loop performs at most `high + 1 - low` probes
(the interval shrinks strictly each iteration), a binary-search run performs
at most one quote fetch plus `theoretical_max` orders, and every
`process_signal` call issues a finite trace bounded by the account state. -/
theorem C10_termination :
    (∀ accepts : Int → Bool, ∀ low high acc : Int,
       (bsearchLoop accepts low high acc).2.length ≤ (high + 1 - low).toNat) ∧
    (∀ env symbol max_cash,
       (binary_search_max_quantity env symbol max_cash).2.length ≤
         1 + theoretical_max_nat env symbol max_cash) ∧
    (∀ env now last signal,
       (process_signal env now last signal).2.2.length ≤
         3 + theoretical_max_nat env "MSTU" (spendable_cash env)
           + theoretical_max_nat env "MSTZ" (spendable_cash env)
           + position_count env) := by
  refine ⟨?_, ?_, ?_⟩
  · intro accepts low high acc
    exact bsearchLoop_length accepts (high + 1 - low).toNat low high acc le_rfl
  · intro env symbol max_cash
    exact binary_search_length_tm env symbol max_cash
  · intro env now last signal
    by_cases hval : signal ∉ ["long", "short"]
    · simp [process_signal, hval]
    · simp only [process_signal]
      rw [if_neg hval]
      by_cases hcd : in_cooldown now last = true
      · rw [if_pos hcd]
        refine le_trans (close_positions_length env (some ["MSTU", "MSTZ"])) ?_
        omega
      · rw [if_neg hcd]
        by_cases hsl : signal = "long"
        · rw [if_pos hsl]
          refine le_trans (process_long_length env now last) ?_
          omega
        · rw [if_neg hsl]
          refine le_trans (process_short_length env now last) ?_
          omega

/-- C7 counterexample: with no positions held at all, the filter
`["MSTZ"]` matches no held position, yet the message is
"No positions to close", not "No matching positions found to close"
(the call is still a success with only the positions fetch). -/
theorem C7_counterexample :
    (close_positions envFlat (some ["MSTZ"])).1.status = "success" ∧
    (close_positions envFlat (some ["MSTZ"])).1.message = "No positions to close" ∧
    (close_positions envFlat (some ["MSTZ"])).1.message ≠
      "No matching positions found to close" ∧
    (close_positions envFlat (some ["MSTZ"])).2 = [ApiCall.getPositions] := by
  refine ⟨rfl, rfl, by decide, rfl⟩

/-- C7 (amended): when the positions fetch succeeds, `close_positions`
always reports success; with positions held but none matching the filter it
returns the no-match message after only the positions fetch (with no held
positions at all the message is "No positions to close" instead); and with
positions held, the `closed_positions` key holds exactly the symbols of the
matching positions whose close order the brokerage accepted. -/
theorem C7_close_positions_behaviour (env : Env) (symbols : Option (List String))
    (ps : List Position) (hps : env.positions = some ps) :
    (close_positions env symbols).1.status = "success" ∧
    (ps = [] → close_positions env symbols =
       ({ status := "success", message := "No positions to close" },
        [ApiCall.getPositions])) ∧
    (ps ≠ [] → (∀ p ∈ ps, matchesFilter symbols p.symbol = false) →
       close_positions env symbols =
         ({ status := "success", message := "No matching positions found to close" },
          [ApiCall.getPositions])) ∧
    (ps ≠ [] →
       (close_positions env symbols).1.closed_positions =
         (if ((ps.filter (fun p => matchesFilter symbols p.symbol &&
                env.orderAccepts p.symbol (pyInt p.quantity)
                  (closeAction p.quantityDirection))).map (fun p => p.symbol)) = []
          then none
          else some ((ps.filter (fun p => matchesFilter symbols p.symbol &&
                env.orderAccepts p.symbol (pyInt p.quantity)
                  (closeAction p.quantityDirection))).map (fun p => p.symbol)))) := by
  refine ⟨close_positions_success env symbols ps hps, ?_, ?_, ?_⟩
  · intro h
    simp [close_positions, hps, h]
  · intro hne hmatch
    exact close_positions_nomatch env symbols ps hps hne hmatch
  · intro hne
    exact close_positions_closed env symbols ps hps hne

/-- Witness for C7 (amended): against the mixed oracle, closing
{MSTU, MSTZ} succeeds overall and lists exactly MSTU, whose close was the
only one accepted. -/
theorem C7_close_positions_behaviour_witness :
    (close_positions envMixed (some ["MSTU", "MSTZ"])).1.status = "success" ∧
    (close_positions envMixed (some ["MSTU", "MSTZ"])).1.closed_positions =
      some ["MSTU"] := by
  have h := C7_close_positions_behaviour envMixed (some ["MSTU", "MSTZ"])
    [⟨"MSTU", 5, "Long"⟩, ⟨"MSTZ", 3, "Short"⟩] rfl
  refine ⟨h.1, ?_⟩
  rw [h.2.2.2 (by decide)]
  decide

/-- C8: `get_stock_price` derives the mid price when both bid and ask are
present, else the last trade price, else null, and null on fetch failure or
a malformed response; `close_position` turns a Long position into a
Sell to Close order and any other direction into a Buy to Close order,
delegating to `place_order`. -/
theorem C8_price_and_close_action :
    (∀ b a l, derive_stock_price (QuoteFetch.items ⟨some b, some a, l⟩) =
       some ((b + a) / 2)) ∧
    (∀ b a l, b = none ∨ a = none →
       derive_stock_price (QuoteFetch.items ⟨b, a, some l⟩) = some l) ∧
    (∀ b a, b = none ∨ a = none →
       derive_stock_price (QuoteFetch.items ⟨b, a, none⟩) = none) ∧
    derive_stock_price QuoteFetch.failure = none ∧
    derive_stock_price QuoteFetch.noData = none ∧
    (∀ env s q, close_position env s q "Long" = place_order env s q "Sell to Close") ∧
    (∀ env s q d, d ≠ "Long" → close_position env s q d = place_order env s q "Buy to Close") := by
  refine ⟨fun b a l => rfl, ?_, ?_, rfl, rfl, fun env s q => rfl, ?_⟩
  · intro b a l h
    rcases h with h | h <;> subst h
    · cases a <;> rfl
    · cases b <;> rfl
  · intro b a h
    rcases h with h | h <;> subst h
    · cases a <;> rfl
    · cases b <;> rfl
  · intro env s q d hd
    unfold close_position closeAction
    rw [if_neg hd]

/-- Witness for C8: concrete mid-price, last-price fallback, and a short
position closed with a Buy to Close order. -/
theorem C8_price_and_close_action_witness :
    derive_stock_price (QuoteFetch.items ⟨some 10, some 12, some 7⟩) = some 11 ∧
    derive_stock_price (QuoteFetch.items ⟨none, some 12, some 7⟩) = some 7 ∧
    close_position envFlat "MSTU" 3 "Short" = place_order envFlat "MSTU" 3 "Buy to Close" := by
  have h := C8_price_and_close_action
  refine ⟨?_, h.2.1 none (some 12) 7 (Or.inl rfl), h.2.2.2.2.2.2 envFlat "MSTU" 3 "Short" (by decide)⟩
  rw [h.1 10 12 (some 7)]
  norm_num

/-- C3: in both branches the sizing step receives 100% of available cash
when positions exist and 50% when starting flat, and a successful result's
quantity never exceeds `int(spendable_cash / price)`; concretely, with
balance 10000, no positions and MSTU at 100, the success result carries
quantity 50 = int(5000 / 100). -/
theorem C3_spendable_cash_and_quantity :
    (∀ env now last bal ps p q,
       env.balance = some bal → env.positions = some ps →
       env.price "MSTU" = some p → 0 < p →
       (process_long_signal env now last).1.quantity = some q →
       q ≤ pyInt ((if ps ≠ [] then bal.cashAvailableToWithdraw
                   else bal.cashAvailableToWithdraw * (1 / 2)) / p)) ∧
    (∀ env now last bal ps p q,
       env.balance = some bal → env.positions = some ps →
       env.price "MSTZ" = some p → 0 < p →
       (process_short_signal env now last).1.quantity = some q →
       q ≤ pyInt ((if ps ≠ [] then bal.cashAvailableToWithdraw
                   else bal.cashAvailableToWithdraw * (1 / 2)) / p)) ∧
    ((process_long_signal envFlat 0 none).1 =
       { status := "success", message := "Bought 50 shares of MSTU",
         symbol := some "MSTU", quantity := some 50 }) := by
  refine ⟨?_, ?_, ?_⟩
  · intro env now last bal ps p q hb hps hp hp0 hq
    simp only [process_long_signal, hb, hps] at hq
    by_cases hne : ps ≠ []
    · simp only [ne_eq, hne, not_false_eq_true, if_true] at hq ⊢
      split at hq
      · simp at hq
      · next hpos =>
        simp only [Option.some.injEq] at hq
        rcases (binary_search_spec env "MSTU" bal.cashAvailableToWithdraw p hp hp0).2 with
          h0 | ⟨h1, h2, h3⟩
        · omega
        · omega
    · rw [not_ne_iff] at hne
      subst hne
      simp only [ne_eq, not_true_eq_false, if_false] at hq ⊢
      split at hq
      · simp at hq
      · next hpos =>
        simp only [Option.some.injEq] at hq
        rcases (binary_search_spec env "MSTU" (bal.cashAvailableToWithdraw * (1 / 2)) p
            hp hp0).2 with h0 | ⟨h1, h2, h3⟩
        · omega
        · omega
  · intro env now last bal ps p q hb hps hp hp0 hq
    simp only [process_short_signal, hb, hps] at hq
    by_cases hne : ps ≠ []
    · simp only [ne_eq, hne, not_false_eq_true, if_true] at hq ⊢
      split at hq
      · simp at hq
      · next hpos =>
        simp only [Option.some.injEq] at hq
        rcases (binary_search_spec env "MSTZ" bal.cashAvailableToWithdraw p hp hp0).2 with
          h0 | ⟨h1, h2, h3⟩
        · omega
        · omega
    · rw [not_ne_iff] at hne
      subst hne
      simp only [ne_eq, not_true_eq_false, if_false] at hq ⊢
      split at hq
      · simp at hq
      · next hpos =>
        simp only [Option.some.injEq] at hq
        rcases (binary_search_spec env "MSTZ" (bal.cashAvailableToWithdraw * (1 / 2)) p
            hp hp0).2 with h0 | ⟨h1, h2, h3⟩
        · omega
        · omega
  · have haccept : ∀ m : Int, (fun m => envFlat.orderAccepts "MSTU" m "Buy to Open") m = true :=
      fun m => rfl
    have hloop := bsearchLoop_allAccept _ haccept 50 1 50 0 (by decide) rfl
    have hloop50 : (bsearchLoop (fun m => envFlat.orderAccepts "MSTU" m "Buy to Open") 1 50 0).1
        = 50 := by
      rw [hloop]; decide
    have hp : envFlat.price "MSTU" = some 100 := rfl
    have hpy : pyInt ((5000 : ℚ) / 100) = 50 := by norm_num [pyInt]
    have hbs : (binary_search_max_quantity envFlat "MSTU" (5000 : ℚ)).1 = 50 := by
      simp only [binary_search_max_quantity, hp, hpy]
      norm_num
      exact hloop50
    have hb : envFlat.balance = some ⟨10000⟩ := rfl
    have hps : envFlat.positions = some [] := rfl
    simp only [process_long_signal, hb, hps]
    norm_num
    rw [hbs]
    norm_num
    decide

/-- Witness for C3: the concrete quantity 50 respects the 50%-of-cash
bound int(5000 / 100). -/
theorem C3_spendable_cash_and_quantity_witness :
    (50 : Int) ≤ pyInt (((10000 : ℚ) * (1 / 2)) / 100) := by
  have h := C3_spendable_cash_and_quantity
  have hq : (process_long_signal envFlat 0 none).1.quantity = some 50 := by
    rw [h.2.2]
  have hb : (50 : Int) ≤ pyInt ((if ([] : List Position) ≠ [] then
      (Balance.mk 10000).cashAvailableToWithdraw
      else (Balance.mk 10000).cashAvailableToWithdraw * (1 / 2)) / 100) :=
    h.1 envFlat 0 none ⟨10000⟩ [] 100 50 rfl rfl rfl (by norm_num) hq
  simpa using hb

/-- C6 counterexample: with quantity 0 (no price available), the long branch
fails with message "Failed to buy MSTU", not "not enough cash". -/
theorem C6_counterexample :
    (process_long_signal envPoor 0 none).1.status = "error" ∧
    (process_long_signal envPoor 0 none).1.message = "Failed to buy MSTU" ∧
    (process_long_signal envPoor 0 none).1.message ≠ "not enough cash" := by
  refine ⟨rfl, rfl, by decide⟩

/-- C6 (amended): when the computed buy quantity is ≤ 0, the branch fails
with status error and message "Failed to buy MSTU" (long) or
"Failed to buy MSTZ" (short), leaving the state unchanged after the two
fetches and the sizing calls. -/
theorem C6_failed_buy_message (env : Env) (now : ℚ) (last : Option ℚ)
    (bal : Balance) (ps : List Position)
    (hb : env.balance = some bal) (hps : env.positions = some ps) :
    ((binary_search_max_quantity env "MSTU" (spendable_cash env)).1 ≤ 0 →
       process_long_signal env now last =
         ({ status := "error", message := "Failed to buy MSTU" }, last,
          ApiCall.getAccountBalance :: ApiCall.getPositions ::
            (binary_search_max_quantity env "MSTU" (spendable_cash env)).2)) ∧
    ((binary_search_max_quantity env "MSTZ" (spendable_cash env)).1 ≤ 0 →
       process_short_signal env now last =
         ({ status := "error", message := "Failed to buy MSTZ" }, last,
          ApiCall.getAccountBalance :: ApiCall.getPositions ::
            (binary_search_max_quantity env "MSTZ" (spendable_cash env)).2)) := by
  have hsp : spendable_cash env =
      (if ps ≠ [] then bal.cashAvailableToWithdraw
       else bal.cashAvailableToWithdraw * (1 / 2)) := by
    simp [spendable_cash, hb, hps]
  constructor
  · intro hq
    rw [hsp] at hq ⊢
    simp only [process_long_signal, hb, hps]
    by_cases hne : ps ≠ []
    · simp only [ne_eq, hne, not_false_eq_true, if_true] at hq ⊢
      rw [if_pos hq]
    · rw [not_ne_iff] at hne
      subst hne
      simp only [ne_eq, not_true_eq_false, if_false] at hq ⊢
      rw [if_pos hq]
  · intro hq
    rw [hsp] at hq ⊢
    simp only [process_short_signal, hb, hps]
    by_cases hne : ps ≠ []
    · simp only [ne_eq, hne, not_false_eq_true, if_true] at hq ⊢
      rw [if_pos hq]
    · rw [not_ne_iff] at hne
      subst hne
      simp only [ne_eq, not_true_eq_false, if_false] at hq ⊢
      rw [if_pos hq]

/-- Witness for C6 (amended): the poor oracle computes quantity 0 and the
long branch fails with "Failed to buy MSTU". -/
theorem C6_failed_buy_message_witness :
    process_long_signal envPoor 0 none =
      ({ status := "error", message := "Failed to buy MSTU" }, none,
       ApiCall.getAccountBalance :: ApiCall.getPositions ::
         (binary_search_max_quantity envPoor "MSTU" (spendable_cash envPoor)).2) :=
  (C6_failed_buy_message envPoor 0 none ⟨0⟩ [] rfl rfl).1 (by decide)
